import Mathlib

/-!
Verification of the permission-diff engine of `go/vt/mysqlctl/tmutils/permissions.go`.

The Go file compares two snapshots of MySQL grant state (user grants and per-database
grants) with a generic two-pointer sorted-merge and reports every discrepancy as a
formatted message.  We embed the record types, the key/value projections, the message
formatting and the merge itself, and prove the spec's claims about them.

Modelling conventions:
* Go `map[string]string` becomes an association list `List (String × String)`;
  `printPrivileges` sorts the keys before rendering, exactly as the source does, so the
  iteration order of the map never matters.
* Go `uint64` checksums become `Nat` (no arithmetic is ever performed on them, only the
  zero test and decimal printing, so overflow is irrelevant).
* The `concurrency.ErrorRecorder` sink is not part of this fragment; per the spec it is
  an append-only list of messages, so the differ here returns the ordered list of
  messages it would have recorded.
-/

namespace Vitess

/-- Embeds `tabletmanagerdatapb.UserPermission`: host, user, CRC-64 password checksum
and the privilege map (as an association list). -/
structure UserPermission where
  host : String
  user : String
  passwordChecksum : Nat
  privileges : List (String × String)

/-- Embeds `tabletmanagerdatapb.DbPermission`: host, db, user and the privilege map. -/
structure DbPermission where
  host : String
  db : String
  user : String
  privileges : List (String × String)

/-- Embeds `tabletmanagerdatapb.Permissions`: one snapshot, a user-grant list and a
db-grant list. -/
structure Permissions where
  userPermissions : List UserPermission
  dbPermissions : List DbPermission

/-- Decimal rendering of a natural number, as Go `fmt.Sprintf("%v", u)` prints an
unsigned integer: the base-10 digits, most significant first (`Nat.digits` is
little-endian, hence the `reverse`), and `"0"` for zero. -/
def natDecimal (n : Nat) : String :=
  if n = 0 then "0" else ((Nat.digits 10 n).reverse.map Nat.digitChar).asString

/-- Go `priv[k]` for a key `k` known to be in the map: first value bound to `k`
in the association list (`""` if absent, which never happens for keys of the list). -/
def privLookup (priv : List (String × String)) (k : String) : String :=
  (priv.lookup k).getD ""

/-- Embeds `printPrivileges`: collect the keys `si`, sort them (Go `sort.Strings`), then
append `" " + k + "(" + priv[k] + ")"` for each key in sorted order. -/
def printPrivileges (priv : List (String × String)) : String :=
  (List.insertionSort (fun a b => a ≤ b) (priv.map Prod.fst)).foldl
    (fun result k => result ++ " " ++ k ++ "(" ++ privLookup priv k ++ ")") ""

/-- Embeds `UserPermissionPrimaryKey`: `host + ":" + user`. -/
def UserPermissionPrimaryKey (up : UserPermission) : String :=
  up.host ++ ":" ++ up.user

/-- Embeds `UserPermissionString`: `"UserPermission "` followed by the password
component (`"NoPassword"` when the checksum is 0, else `"PasswordChecksum(<decimal>)"`)
followed by the rendered privileges. -/
def UserPermissionString (up : UserPermission) : String :=
  let passwd := if up.passwordChecksum = 0 then "NoPassword"
    else "PasswordChecksum(" ++ natDecimal up.passwordChecksum ++ ")"
  "UserPermission " ++ passwd ++ printPrivileges up.privileges

/-- Embeds `userPermissionList.Get` over the whole slice: the `(primary key, value)`
projection the differ consumes. -/
def userPermissionListGet (upl : List UserPermission) : List (String × String) :=
  upl.map fun up => (UserPermissionPrimaryKey up, UserPermissionString up)

/-- Embeds `DbPermissionPrimaryKey`: `host + ":" + db + ":" + user`. -/
def DbPermissionPrimaryKey (dp : DbPermission) : String :=
  dp.host ++ ":" ++ dp.db ++ ":" ++ dp.user

/-- Embeds `DbPermissionString`: `"DbPermission"` followed by the rendered privileges. -/
def DbPermissionString (dp : DbPermission) : String :=
  "DbPermission" ++ printPrivileges dp.privileges

/-- Embeds `dbPermissionList.Get` over the whole slice. -/
def dbPermissionListGet (dpl : List DbPermission) : List (String × String) :=
  dpl.map fun dp => (DbPermissionPrimaryKey dp, DbPermissionString dp)

/-- The extra-record message: `fmt.Errorf("%v has an extra %v %v", sideName, name, pk)`. -/
def extraMsg (sideName name pk : String) : String :=
  sideName ++ " has an extra " ++ name ++ " " ++ pk

/-- The value-mismatch message:
`fmt.Errorf("permissions differ on %v %v:\n%s: %v\n differs from:\n%s: %v", ...)`. -/
def mismatchMsg (name pk leftName lval rightName rval : String) : String :=
  "permissions differ on " ++ name ++ " " ++ pk ++ ":\n" ++ leftName ++ ": " ++ lval ++
    "\n differs from:\n" ++ rightName ++ ": " ++ rval

/-- A structured discrepancy report, as described in spec 4.3: either an extra record
on one side, or a value mismatch on a shared key. -/
inductive PermDiff where
  | extra (sideName name pk : String)
  | mismatch (name pk leftName lval rightName rval : String)

/-- The message text recorded for a report. -/
def PermDiff.render : PermDiff → String
  | .extra s n k => extraMsg s n k
  | .mismatch n k lN lv rN rv => mismatchMsg n k lN lv rN rv

/-- The primary key a report is about. -/
def PermDiff.key : PermDiff → String
  | .extra _ _ k => k
  | .mismatch _ k _ _ _ _ => k

/-- Embeds `diffPermissions`, at the structured-report level: the two-pointer merge over
the `(primary key, value)` projections of the two slices.  Extra on the left when
`lpk < rpk`, extra on the right when `lpk > rpk`, value comparison when the keys tie;
once a side is exhausted the remainder of the other side is all extras. -/
def diffReports (name leftName : String) (left : List (String × String))
    (rightName : String) (right : List (String × String)) : List PermDiff :=
  match left, right with
  | [], right => right.map fun r => PermDiff.extra rightName name r.1
  | left, [] => left.map fun l => PermDiff.extra leftName name l.1
  | l :: ls, r :: rs =>
    if l.1 < r.1 then
      PermDiff.extra leftName name l.1 :: diffReports name leftName ls rightName (r :: rs)
    else if r.1 < l.1 then
      PermDiff.extra rightName name r.1 :: diffReports name leftName (l :: ls) rightName rs
    else if l.2 ≠ r.2 then
      PermDiff.mismatch name l.1 leftName l.2 rightName r.2 :: diffReports name leftName ls rightName rs
    else diffReports name leftName ls rightName rs
termination_by left.length + right.length

/-- Embeds `diffPermissions` as the ordered list of messages it records into the error
recorder (the recorder itself, `concurrency.AllErrorRecorder`, is outside this fragment;
per the spec it is an append-only ordered sink). -/
def diffPermissions (name leftName : String) (left : List (String × String))
    (rightName : String) (right : List (String × String)) : List String :=
  match left, right with
  | [], right => right.map fun r => extraMsg rightName name r.1
  | left, [] => left.map fun l => extraMsg leftName name l.1
  | l :: ls, r :: rs =>
    if l.1 < r.1 then
      extraMsg leftName name l.1 :: diffPermissions name leftName ls rightName (r :: rs)
    else if r.1 < l.1 then
      extraMsg rightName name r.1 :: diffPermissions name leftName (l :: ls) rightName rs
    else if l.2 ≠ r.2 then
      mismatchMsg name l.1 leftName l.2 rightName r.2 :: diffPermissions name leftName ls rightName rs
    else diffPermissions name leftName ls rightName rs
termination_by left.length + right.length

/-- Embeds `DiffPermissions`: diff the user grants (kind `"user"`), then the db grants
(kind `"db"`); the recorder accumulates the user messages before the db messages. -/
def DiffPermissions (leftName : String) (left : Permissions)
    (rightName : String) (right : Permissions) : List String :=
  diffPermissions "user" leftName (userPermissionListGet left.userPermissions)
      rightName (userPermissionListGet right.userPermissions) ++
    diffPermissions "db" leftName (dbPermissionListGet left.dbPermissions)
      rightName (dbPermissionListGet right.dbPermissions)

/-- Embeds `DiffPermissionsToArray`.  Modelled from the spec: the
`concurrency.AllErrorRecorder` used here is not part of this fragment; per the spec it
accumulates messages in order, `HasErrors` tests non-emptiness and `ErrorStrings`
returns the accumulated messages, so the function returns the recorded list, empty when
nothing was recorded. -/
def DiffPermissionsToArray (leftName : String) (left : Permissions)
    (rightName : String) (right : Permissions) : List String :=
  let er := DiffPermissions leftName left rightName right
  if er.isEmpty then [] else er

/-! ## Basic facts about the merge -/

/-- The projected key list of a user-grant slice is the list of primary keys. -/
theorem userPermissionListGet_map_fst (l : List UserPermission) :
    (userPermissionListGet l).map Prod.fst = l.map UserPermissionPrimaryKey := by
  simp [userPermissionListGet, List.map_map]

/-- The projected key list of a db-grant slice is the list of primary keys. -/
theorem dbPermissionListGet_map_fst (l : List DbPermission) :
    (dbPermissionListGet l).map Prod.fst = l.map DbPermissionPrimaryKey := by
  simp [dbPermissionListGet, List.map_map]

/-- The projected value list of a db-grant slice. -/
theorem dbPermissionListGet_map_snd (l : List DbPermission) :
    (dbPermissionListGet l).map Prod.snd = l.map DbPermissionString := by
  simp [dbPermissionListGet, List.map_map]

/-- Diffing any projected sequence against itself records nothing. -/
theorem diffPermissions_self (name lN rN : String) (l : List (String × String)) :
    diffPermissions name lN l rN l = [] := by
  induction l with
  | nil => simp [diffPermissions]
  | cons a t ih => rw [diffPermissions]; simp [ih]

/-- The messages are the rendering of the structured reports, in order. -/
theorem diffPermissions_eq_render (name lN : String) (left : List (String × String))
    (rN : String) (right : List (String × String)) :
    diffPermissions name lN left rN right =
      (diffReports name lN left rN right).map PermDiff.render := by
  induction left, rN, right using diffPermissions.induct name lN with
  | case1 rN right => simp [diffPermissions, diffReports, PermDiff.render]
  | case2 rN left h =>
    cases left with
    | nil => exact absurd rfl h
    | cons a t => simp [diffPermissions, diffReports, PermDiff.render]
  | case3 rN l ls r rs h1 ih =>
    rw [diffPermissions, diffReports]
    simp [h1, ih, PermDiff.render]
  | case4 rN l ls r rs h1 h2 ih =>
    rw [diffPermissions, diffReports]
    simp [h1, h2, ih, PermDiff.render]
  | case5 rN l ls r rs h1 h2 h3 ih =>
    rw [diffPermissions, diffReports]
    simp [h1, h2, h3, ih, PermDiff.render]
  | case6 rN l ls r rs h1 h2 h3 ih =>
    rw [diffPermissions, diffReports]
    simp [h1, h2, h3, ih]

/-- Each merge step consumes at least one input record and records at most one message,
so the message count is bounded by the total input length, with no sortedness
assumption. -/
theorem diffPermissions_length_le (name lN : String) (left : List (String × String))
    (rN : String) (right : List (String × String)) :
    (diffPermissions name lN left rN right).length ≤ left.length + right.length := by
  induction left, rN, right using diffPermissions.induct name lN with
  | case1 rN right => simp [diffPermissions]
  | case2 rN left h =>
    cases left with
    | nil => simp [diffPermissions]
    | cons a t => simp [diffPermissions]
  | case3 rN l ls r rs h1 ih =>
    rw [diffPermissions]
    simp only [if_pos h1, List.length_cons]
    simp only [List.length_cons] at ih
    omega
  | case4 rN l ls r rs h1 h2 ih =>
    rw [diffPermissions]
    simp only [if_neg h1, if_pos h2, List.length_cons]
    simp only [List.length_cons] at ih
    omega
  | case5 rN l ls r rs h1 h2 h3 ih =>
    rw [diffPermissions]
    simp only [if_neg h1, if_neg h2, if_pos h3, List.length_cons]
    omega
  | case6 rN l ls r rs h1 h2 h3 ih =>
    rw [diffPermissions]
    simp only [if_neg h1, if_neg h2, if_neg h3, List.length_cons]
    omega

/-- A key of the first sequence that is absent from the second is always reported as an
extra record of the first side, whatever the order of the inputs: the merge can consume
an element of the first sequence without reporting it only when its key also occurs in
the second sequence. -/
theorem extra_left_mem_reports (name lN : String) (left : List (String × String))
    (rN : String) (right : List (String × String)) (K : String)
    (hK : K ∈ left.map Prod.fst) (hK2 : K ∉ right.map Prod.fst) :
    PermDiff.extra lN name K ∈ diffReports name lN left rN right := by
  induction left, rN, right using diffReports.induct name lN with
  | case1 rN right => simp at hK
  | case2 rN left h =>
    cases left with
    | nil => simp at hK
    | cons a t =>
      rw [diffReports]
      · obtain ⟨p, hp, hpk⟩ := List.mem_map.mp hK
        exact List.mem_map.mpr ⟨p, hp, by rw [hpk]⟩
      · exact h
  | case3 rN l ls r rs h1 ih =>
    rw [diffReports, if_pos h1]
    rw [List.map_cons] at hK
    rcases List.mem_cons.mp hK with h | h
    · exact h ▸ List.mem_cons_self _ _
    · exact List.mem_cons_of_mem _ (ih h hK2)
  | case4 rN l ls r rs h1 h2 ih =>
    rw [diffReports, if_neg h1, if_pos h2]
    rw [List.map_cons] at hK2
    exact List.mem_cons_of_mem _ (ih hK (fun hin => hK2 (List.mem_cons_of_mem _ hin)))
  | case5 rN l ls r rs h1 h2 h3 ih =>
    rw [diffReports, if_neg h1, if_neg h2, if_pos h3]
    have heq : l.1 = r.1 := le_antisymm (not_lt.mp h2) (not_lt.mp h1)
    rw [List.map_cons] at hK hK2
    rcases List.mem_cons.mp hK with h | h
    · exact absurd (h.trans heq ▸ List.mem_cons_self r.1 (rs.map Prod.fst)) hK2
    · exact List.mem_cons_of_mem _ (ih h (fun hin => hK2 (List.mem_cons_of_mem _ hin)))
  | case6 rN l ls r rs h1 h2 h3 ih =>
    rw [diffReports, if_neg h1, if_neg h2, if_neg h3]
    have heq : l.1 = r.1 := le_antisymm (not_lt.mp h2) (not_lt.mp h1)
    rw [List.map_cons] at hK hK2
    rcases List.mem_cons.mp hK with h | h
    · exact absurd (h.trans heq ▸ List.mem_cons_self r.1 (rs.map Prod.fst)) hK2
    · exact ih h (fun hin => hK2 (List.mem_cons_of_mem _ hin))

/-- Symmetric form: a key present only in the second sequence is always reported as an
extra record of the second side. -/
theorem extra_right_mem_reports (name lN : String) (left : List (String × String))
    (rN : String) (right : List (String × String)) (K : String)
    (hK : K ∈ right.map Prod.fst) (hK2 : K ∉ left.map Prod.fst) :
    PermDiff.extra rN name K ∈ diffReports name lN left rN right := by
  induction left, rN, right using diffReports.induct name lN with
  | case1 rN right =>
    rw [diffReports]
    obtain ⟨p, hp, hpk⟩ := List.mem_map.mp hK
    exact List.mem_map.mpr ⟨p, hp, by rw [hpk]⟩
  | case2 rN left h =>
    simp at hK
  | case3 rN l ls r rs h1 ih =>
    rw [diffReports, if_pos h1]
    rw [List.map_cons] at hK2
    exact List.mem_cons_of_mem _ (ih hK (fun hin => hK2 (List.mem_cons_of_mem _ hin)))
  | case4 rN l ls r rs h1 h2 ih =>
    rw [diffReports, if_neg h1, if_pos h2]
    rw [List.map_cons] at hK
    rcases List.mem_cons.mp hK with h | h
    · exact h ▸ List.mem_cons_self _ _
    · exact List.mem_cons_of_mem _ (ih h hK2)
  | case5 rN l ls r rs h1 h2 h3 ih =>
    rw [diffReports, if_neg h1, if_neg h2, if_pos h3]
    have heq : l.1 = r.1 := le_antisymm (not_lt.mp h2) (not_lt.mp h1)
    rw [List.map_cons] at hK hK2
    rcases List.mem_cons.mp hK with h | h
    · exact absurd (h.trans heq.symm ▸ List.mem_cons_self l.1 (ls.map Prod.fst)) hK2
    · exact List.mem_cons_of_mem _ (ih h (fun hin => hK2 (List.mem_cons_of_mem _ hin)))
  | case6 rN l ls r rs h1 h2 h3 ih =>
    rw [diffReports, if_neg h1, if_neg h2, if_neg h3]
    have heq : l.1 = r.1 := le_antisymm (not_lt.mp h2) (not_lt.mp h1)
    rw [List.map_cons] at hK hK2
    rcases List.mem_cons.mp hK with h | h
    · exact absurd (h.trans heq.symm ▸ List.mem_cons_self l.1 (ls.map Prod.fst)) hK2
    · exact ih h (fun hin => hK2 (List.mem_cons_of_mem _ hin))

/-- Every key a report names comes from one of the two input sequences. -/
theorem diffReports_key_mem (name lN : String) (left : List (String × String))
    (rN : String) (right : List (String × String)) (k : String)
    (hk : k ∈ (diffReports name lN left rN right).map PermDiff.key) :
    k ∈ left.map Prod.fst ∨ k ∈ right.map Prod.fst := by
  induction left, rN, right using diffReports.induct name lN with
  | case1 rN right =>
    right
    rw [diffReports] at hk
    simpa [List.map_map, PermDiff.key, Function.comp] using hk
  | case2 rN left h =>
    left
    cases left with
    | nil => exact absurd rfl h
    | cons a t =>
      rw [diffReports] at hk
      · simpa [List.map_map, PermDiff.key, Function.comp] using hk
      · exact h
  | case3 rN l ls r rs h1 ih =>
    rw [diffReports, if_pos h1, List.map_cons] at hk
    simp only [List.map_cons]
    rcases List.mem_cons.mp hk with h | h
    · exact Or.inl (List.mem_cons.mpr (Or.inl h))
    · rcases ih h with h2 | h2
      · exact Or.inl (List.mem_cons_of_mem _ h2)
      · exact Or.inr (by rwa [List.map_cons] at h2)
  | case4 rN l ls r rs h1 h2 ih =>
    rw [diffReports, if_neg h1, if_pos h2, List.map_cons] at hk
    simp only [List.map_cons]
    rcases List.mem_cons.mp hk with h | h
    · exact Or.inr (List.mem_cons.mpr (Or.inl h))
    · rcases ih h with h3 | h3
      · exact Or.inl (by rwa [List.map_cons] at h3)
      · exact Or.inr (List.mem_cons_of_mem _ h3)
  | case5 rN l ls r rs h1 h2 h3 ih =>
    rw [diffReports, if_neg h1, if_neg h2, if_pos h3, List.map_cons] at hk
    simp only [List.map_cons]
    rcases List.mem_cons.mp hk with h | h
    · exact Or.inl (List.mem_cons.mpr (Or.inl h))
    · rcases ih h with h4 | h4
      · exact Or.inl (List.mem_cons_of_mem _ h4)
      · exact Or.inr (List.mem_cons_of_mem _ h4)
  | case6 rN l ls r rs h1 h2 h3 ih =>
    rw [diffReports, if_neg h1, if_neg h2, if_neg h3] at hk
    simp only [List.map_cons]
    rcases ih hk with h4 | h4
    · exact Or.inl (List.mem_cons_of_mem _ h4)
    · exact Or.inr (List.mem_cons_of_mem _ h4)

/-- With strictly-ascending key lists on both sides, the keys named by the emitted
reports are strictly increasing. -/
theorem diffReports_keys_sorted (name lN : String) (left : List (String × String))
    (rN : String) (right : List (String × String)) :
    List.Pairwise (fun a b : String => a < b) (left.map Prod.fst) →
    List.Pairwise (fun a b : String => a < b) (right.map Prod.fst) →
    List.Pairwise (fun a b : String => a < b)
      ((diffReports name lN left rN right).map PermDiff.key) := by
  induction left, rN, right using diffReports.induct name lN with
  | case1 rN right =>
    intro _ hr
    rw [diffReports]
    simpa [List.map_map, Function.comp, PermDiff.key] using hr
  | case2 rN left h =>
    intro hl _
    cases left with
    | nil => exact absurd rfl h
    | cons a t =>
      rw [diffReports]
      · simpa [List.map_map, Function.comp, PermDiff.key] using hl
      · exact h
  | case3 rN l ls r rs h1 ih =>
    intro hl hr
    have hl' := hl
    have hr' := hr
    rw [List.map_cons] at hl' hr'
    rw [diffReports, if_pos h1, List.map_cons]
    refine List.pairwise_cons.mpr ⟨?_, ih (List.Pairwise.of_cons hl') hr⟩
    intro k hk
    show l.1 < k
    rcases diffReports_key_mem name lN ls rN (r :: rs) k hk with h | h
    · exact (List.pairwise_cons.mp hl').1 k h
    · rw [List.map_cons] at h
      rcases List.mem_cons.mp h with h2 | h2
      · exact h2 ▸ h1
      · exact lt_trans h1 ((List.pairwise_cons.mp hr').1 k h2)
  | case4 rN l ls r rs h1 h2 ih =>
    intro hl hr
    have hl' := hl
    have hr' := hr
    rw [List.map_cons] at hl' hr'
    rw [diffReports, if_neg h1, if_pos h2, List.map_cons]
    refine List.pairwise_cons.mpr ⟨?_, ih hl (List.Pairwise.of_cons hr')⟩
    intro k hk
    show r.1 < k
    rcases diffReports_key_mem name lN (l :: ls) rN rs k hk with h | h
    · rw [List.map_cons] at h
      rcases List.mem_cons.mp h with h3 | h3
      · exact h3 ▸ h2
      · exact lt_trans h2 ((List.pairwise_cons.mp hl').1 k h3)
    · exact (List.pairwise_cons.mp hr').1 k h
  | case5 rN l ls r rs h1 h2 h3 ih =>
    intro hl hr
    have heq : l.1 = r.1 := le_antisymm (not_lt.mp h2) (not_lt.mp h1)
    have hl' := hl
    have hr' := hr
    rw [List.map_cons] at hl' hr'
    rw [diffReports, if_neg h1, if_neg h2, if_pos h3, List.map_cons]
    refine List.pairwise_cons.mpr
      ⟨?_, ih (List.Pairwise.of_cons hl') (List.Pairwise.of_cons hr')⟩
    intro k hk
    show l.1 < k
    rcases diffReports_key_mem name lN ls rN rs k hk with h | h
    · exact (List.pairwise_cons.mp hl').1 k h
    · exact heq ▸ (List.pairwise_cons.mp hr').1 k h
  | case6 rN l ls r rs h1 h2 h3 ih =>
    intro hl hr
    have hl' := hl
    have hr' := hr
    rw [List.map_cons] at hl' hr'
    rw [diffReports, if_neg h1, if_neg h2, if_neg h3]
    exact ih (List.Pairwise.of_cons hl') (List.Pairwise.of_cons hr')

/-- One record on each side with the same key and differing values: the reports are
exactly one mismatch. -/
theorem diffReports_single_mismatch (name lN rN : String) (l r : String × String)
    (hk : l.1 = r.1) (hv : l.2 ≠ r.2) :
    diffReports name lN [l] rN [r] = [PermDiff.mismatch name l.1 lN l.2 rN r.2] := by
  rw [diffReports, if_neg (hk ▸ lt_irrefl l.1), if_neg (hk ▸ lt_irrefl l.1), if_pos hv]
  simp [diffReports]

/-- Message-level version of `diffReports_single_mismatch`. -/
theorem diffPermissions_single_mismatch (name lN rN : String) (l r : String × String)
    (hk : l.1 = r.1) (hv : l.2 ≠ r.2) :
    diffPermissions name lN [l] rN [r] = [mismatchMsg name l.1 lN l.2 rN r.2] := by
  rw [diffPermissions_eq_render, diffReports_single_mismatch name lN rN l r hk hv]
  simp [PermDiff.render]

/-- One record on each side with the same key and the same value: nothing is recorded. -/
theorem diffPermissions_single_eq (name lN rN : String) (l r : String × String)
    (hk : l.1 = r.1) (hv : l.2 = r.2) :
    diffPermissions name lN [l] rN [r] = [] := by
  rw [diffPermissions, if_neg (hk ▸ lt_irrefl l.1), if_neg (hk ▸ lt_irrefl l.1),
    if_neg (by simp [hv])]
  simp [diffPermissions]

/-! ## The privilege rendering -/

/-- Folding string append from any accumulator splits off the accumulator. -/
theorem strFoldlAppend (l : List String) : ∀ init : String,
    l.foldl (fun r s => r ++ s) init = init ++ l.foldl (fun r s => r ++ s) "" := by
  induction l with
  | nil =>
    intro init
    simp
  | cons x xs ih =>
    intro init
    simp only [List.foldl_cons]
    rw [ih (init ++ x), ih ("" ++ x), String.empty_append, String.append_assoc]

/-- `String.join` of a cons. -/
theorem strJoinCons (x : String) (l : List String) :
    String.join (x :: l) = x ++ String.join l := by
  show List.foldl (fun r s => r ++ s) ("" ++ x) l = x ++ List.foldl (fun r s => r ++ s) "" l
  rw [strFoldlAppend l ("" ++ x), String.empty_append]

/-- The privilege fold is the join of the per-key entries. -/
theorem privFoldl_eq_join (priv : List (String × String)) (ks : List String) :
    ∀ init : String,
      ks.foldl (fun result k => result ++ " " ++ k ++ "(" ++ privLookup priv k ++ ")") init
        = init ++ String.join (ks.map (fun k => " " ++ k ++ "(" ++ privLookup priv k ++ ")")) := by
  induction ks with
  | nil =>
    intro init
    simp [String.join]
  | cons k ks ih =>
    intro init
    simp only [List.foldl_cons, List.map_cons]
    rw [ih (init ++ " " ++ k ++ "(" ++ privLookup priv k ++ ")"), strJoinCons]
    simp [String.append_assoc]

/-- `printPrivileges` is the concatenation, over the sorted keys, of
`" " ++ key ++ "(" ++ value ++ ")"`. -/
theorem printPrivileges_eq_join (priv : List (String × String)) :
    printPrivileges priv = String.join
      ((List.insertionSort (fun a b : String => a ≤ b) (priv.map Prod.fst)).map
        (fun k => " " ++ k ++ "(" ++ privLookup priv k ++ ")")) := by
  rw [printPrivileges, privFoldl_eq_join, String.empty_append]

/-- `printPrivileges` iterates the keys in ascending order: for any nondecreasing
rearrangement `ks` of the key list, the output is the join over `ks`. -/
theorem printPrivileges_sorted_keys (priv : List (String × String)) (ks : List String)
    (hperm : ks.Perm (priv.map Prod.fst))
    (hsort : List.Sorted (fun a b : String => a ≤ b) ks) :
    printPrivileges priv = String.join
      (ks.map (fun k => " " ++ k ++ "(" ++ privLookup priv k ++ ")")) := by
  have h1 : ks = List.insertionSort (fun a b : String => a ≤ b) (priv.map Prod.fst) :=
    List.eq_of_perm_of_sorted
      (hperm.trans (List.perm_insertionSort (fun a b : String => a ≤ b) _).symm)
      hsort (List.sorted_insertionSort _ _)
  rw [printPrivileges_eq_join, h1]

/-- In an association list with distinct keys, a member pair determines the lookup. -/
theorem lookup_eq_some_of_mem : ∀ {priv : List (String × String)} {k v : String},
    (priv.map Prod.fst).Nodup → (k, v) ∈ priv → priv.lookup k = some v := by
  intro priv
  induction priv with
  | nil => intro k v _ hm; simp at hm
  | cons a t ih =>
    intro k v hnd hm
    obtain ⟨a1, a2⟩ := a
    rw [List.map_cons, List.nodup_cons] at hnd
    rcases List.mem_cons.mp hm with h | h
    · injection h with h1 h2
      subst h1
      subst h2
      simp [List.lookup_cons]
    · have hk : k ≠ a1 := by
        intro hcontra
        apply hnd.1
        show a1 ∈ List.map Prod.fst t
        rw [← hcontra]
        exact List.mem_map_of_mem Prod.fst h
      have hbeq : (k == a1) = false := beq_eq_false_iff_ne.mpr hk
      simp only [List.lookup_cons, hbeq]
      exact ih hnd.2 h

/-- A successful lookup produces a member pair. -/
theorem mem_of_lookup_eq_some : ∀ {priv : List (String × String)} {k v : String},
    priv.lookup k = some v → (k, v) ∈ priv := by
  intro priv
  induction priv with
  | nil => intro k v h; simp [List.lookup] at h
  | cons a t ih =>
    intro k v h
    obtain ⟨a1, a2⟩ := a
    by_cases hk : k = a1
    · subst hk
      simp [List.lookup_cons] at h
      subst h
      exact List.mem_cons_self _ _
    · have hbeq : (k == a1) = false := beq_eq_false_iff_ne.mpr hk
      simp only [List.lookup_cons, hbeq] at h
      exact List.mem_cons_of_mem _ (ih h)

/-- Lookup fails exactly on absent keys. -/
theorem lookup_eq_none_iff : ∀ {priv : List (String × String)} {k : String},
    priv.lookup k = none ↔ k ∉ priv.map Prod.fst := by
  intro priv
  induction priv with
  | nil => intro k; simp [List.lookup]
  | cons a t ih =>
    intro k
    obtain ⟨a1, a2⟩ := a
    by_cases hk : k = a1
    · subst hk
      simp [List.lookup_cons]
    · have hbeq : (k == a1) = false := beq_eq_false_iff_ne.mpr hk
      simp only [List.lookup_cons, List.map_cons, hbeq]
      simp [ih, hk]

/-- Lookup is invariant under permutation when the keys are distinct. -/
theorem lookup_perm {priv priv' : List (String × String)}
    (hperm : priv.Perm priv') (hnd : (priv.map Prod.fst).Nodup) (k : String) :
    priv.lookup k = priv'.lookup k := by
  have hnd' : (priv'.map Prod.fst).Nodup := ((hperm.map Prod.fst).nodup_iff).mp hnd
  cases h : priv.lookup k with
  | some v =>
    exact (lookup_eq_some_of_mem hnd' (hperm.mem_iff.mp (mem_of_lookup_eq_some h))).symm
  | none =>
    have hk : k ∉ priv'.map Prod.fst := fun hin =>
      lookup_eq_none_iff.mp h ((hperm.map Prod.fst).mem_iff.mpr hin)
    exact (lookup_eq_none_iff.mpr hk).symm

/-- `printPrivileges` does not depend on the order of the association list, as long as
the keys are distinct (Go maps have distinct keys and no defined iteration order). -/
theorem printPrivileges_perm {priv priv' : List (String × String)}
    (hperm : priv.Perm priv') (hnd : (priv.map Prod.fst).Nodup) :
    printPrivileges priv = printPrivileges priv' := by
  rw [printPrivileges_eq_join, printPrivileges_eq_join]
  have hkeys : List.insertionSort (fun a b : String => a ≤ b) (priv.map Prod.fst)
      = List.insertionSort (fun a b : String => a ≤ b) (priv'.map Prod.fst) :=
    List.eq_of_perm_of_sorted
      ((List.perm_insertionSort _ _).trans
        ((hperm.map Prod.fst).trans (List.perm_insertionSort _ _).symm))
      (List.sorted_insertionSort _ _) (List.sorted_insertionSort _ _)
  have hfun : (fun k => " " ++ k ++ "(" ++ privLookup priv k ++ ")")
      = fun k => " " ++ k ++ "(" ++ privLookup priv' k ++ ")" := by
    funext k
    rw [privLookup, privLookup, lookup_perm hperm hnd k]
  rw [hkeys, hfun]

/-! ## Decimal rendering and the password component -/

/-- Distinct digits render as distinct characters. -/
theorem digitChar_inj_lt :
    ∀ d1 < 10, ∀ d2 < 10, Nat.digitChar d1 = Nat.digitChar d2 → d1 = d2 := by
  decide

/-- Mapping `digitChar` over digit lists is injective. -/
theorem map_digitChar_inj : ∀ (xs ys : List Nat), (∀ x ∈ xs, x < 10) → (∀ y ∈ ys, y < 10) →
    xs.map Nat.digitChar = ys.map Nat.digitChar → xs = ys := by
  intro xs
  induction xs with
  | nil =>
    intro ys _ _ h
    cases ys with
    | nil => rfl
    | cons y ys => simp at h
  | cons x xs ih =>
    intro ys hx hy h
    cases ys with
    | nil => simp at h
    | cons y ys =>
      simp only [List.map_cons, List.cons.injEq] at h
      have h1 : x = y := digitChar_inj_lt x (hx x (List.mem_cons_self _ _))
        y (hy y (List.mem_cons_self _ _)) h.1
      rw [h1, ih ys (fun a ha => hx a (List.mem_cons_of_mem _ ha))
        (fun a ha => hy a (List.mem_cons_of_mem _ ha)) h.2]

/-- Only zero renders as `"0"`. -/
theorem natDecimal_eq_zero {b : Nat} (h : natDecimal b = "0") : b = 0 := by
  by_contra hb
  rw [natDecimal, if_neg hb] at h
  have h0 : ("0" : String) = List.asString ['0'] := rfl
  rw [h0] at h
  have hl := List.asString_inj.mp h
  have hlen : (Nat.digits 10 b).length = 1 := by
    have := congrArg List.length hl
    simpa using this
  obtain ⟨d, hd⟩ := List.length_eq_one.mp hlen
  rw [hd] at hl
  simp only [List.reverse_singleton, List.map_cons, List.map_nil, List.cons.injEq] at hl
  have hd10 : d < 10 := Nat.digits_lt_base (by norm_num) (by rw [hd]; exact List.mem_singleton_self d)
  have hdc : d = 0 := digitChar_inj_lt d hd10 0 (by norm_num) hl.1
  have hb0 : b = d := by
    conv_lhs => rw [← Nat.ofDigits_digits 10 b]
    rw [hd]
    simp [Nat.ofDigits]
  exact hb (hb0.trans hdc)

/-- The decimal rendering is injective: distinct numbers print differently. -/
theorem natDecimal_inj {a b : Nat} (h : natDecimal a = natDecimal b) : a = b := by
  by_cases ha : a = 0 <;> by_cases hb : b = 0
  · rw [ha, hb]
  · have hz : natDecimal b = "0" := by rw [← h, natDecimal, if_pos ha]
    exact absurd (natDecimal_eq_zero hz) hb
  · have hz : natDecimal a = "0" := by rw [h, natDecimal, if_pos hb]
    exact (natDecimal_eq_zero hz).trans hb.symm
  · rw [natDecimal, if_neg ha, natDecimal, if_neg hb] at h
    have hl := List.asString_inj.mp h
    have hd : (Nat.digits 10 a).reverse = (Nat.digits 10 b).reverse :=
      map_digitChar_inj _ _
        (fun x hx => Nat.digits_lt_base (by norm_num) (List.mem_reverse.mp hx))
        (fun y hy => Nat.digits_lt_base (by norm_num) (List.mem_reverse.mp hy)) hl
    exact Nat.digits_inj_iff.mp (List.reverse_injective hd)

/-- The `let` of `UserPermissionString`, spelled out. -/
theorem UserPermissionString_eq (up : UserPermission) :
    UserPermissionString up = "UserPermission " ++
      (if up.passwordChecksum = 0 then "NoPassword"
        else "PasswordChecksum(" ++ natDecimal up.passwordChecksum ++ ")") ++
      printPrivileges up.privileges := rfl

/-- The two password components have different lengths, hence differ. -/
theorem noPassword_ne_checksum (d : String) :
    ("NoPassword" : String) ≠ "PasswordChecksum(" ++ d ++ ")" := by
  intro h
  have hlen := congrArg String.length h
  rw [String.length_append, String.length_append] at hlen
  have h1 : ("NoPassword" : String).length = 10 := rfl
  have h2 : ("PasswordChecksum(" : String).length = 17 := rfl
  have h3 : (")" : String).length = 1 := rfl
  omega

/-- The checksum rendering determines the decimal string. -/
theorem checksum_render_inj {d1 d2 : String}
    (h : ("PasswordChecksum(" ++ d1 ++ ")" : String) = "PasswordChecksum(" ++ d2 ++ ")") :
    d1 = d2 := by
  have hd := congrArg String.data h
  simp only [String.data_append] at hd
  exact String.ext (List.append_cancel_left (List.append_cancel_right hd))

/-- Cancel the common literal and the common privilege rendering around the password
component. -/
theorem userPassword_data_eq {p1 p2 P : String}
    (h : ("UserPermission " ++ p1 ++ P : String) = "UserPermission " ++ p2 ++ P) :
    p1 = p2 := by
  have hd := congrArg String.data h
  simp only [String.data_append] at hd
  exact String.ext (List.append_cancel_left (List.append_cancel_right hd))

/-- Two user grants with the same privileges but different checksums render
differently. -/
theorem userString_ne_of_checksum_ne (u v : UserPermission)
    (hpriv : u.privileges = v.privileges)
    (hne : u.passwordChecksum ≠ v.passwordChecksum) :
    UserPermissionString u ≠ UserPermissionString v := by
  intro h
  rw [UserPermissionString_eq, UserPermissionString_eq, hpriv] at h
  have hp := userPassword_data_eq h
  by_cases hu : u.passwordChecksum = 0 <;> by_cases hv : v.passwordChecksum = 0
  · exact hne (hu.trans hv.symm)
  · rw [if_pos hu, if_neg hv] at hp
    exact noPassword_ne_checksum _ hp
  · rw [if_neg hu, if_pos hv] at hp
    exact noPassword_ne_checksum _ hp.symm
  · rw [if_neg hu, if_neg hv] at hp
    exact hne (natDecimal_inj (checksum_render_inj hp))

/-- With a zero checksum the password component is the literal `"NoPassword"`. -/
theorem UserPermissionString_nopassword (up : UserPermission)
    (h : up.passwordChecksum = 0) :
    UserPermissionString up = "UserPermission " ++ "NoPassword" ++ printPrivileges up.privileges := by
  rw [UserPermissionString_eq, if_pos h]

/-! ## Concrete evaluations used by the example claims -/

/-- Evaluation of the C1 example pair (with any shared db grants): the differ records
exactly one message, and the user value carries the `"UserPermission "` leader. -/
theorem c1_eval (dbs : List DbPermission) :
    DiffPermissions "left" ⟨[⟨"h", "a", 0, [("Select_priv", "Y")]⟩], dbs⟩
      "right" ⟨[⟨"h", "a", 0, [("Select_priv", "N")]⟩], dbs⟩ =
    ["permissions differ on user h:a:\nleft: UserPermission NoPassword Select_priv(Y)\n differs from:\nright: UserPermission NoPassword Select_priv(N)"] := by
  rw [DiffPermissions, diffPermissions_self, List.append_nil]
  have h1 : userPermissionListGet [⟨"h", "a", 0, [("Select_priv", "Y")]⟩]
      = [("h:a", "UserPermission NoPassword Select_priv(Y)")] := by decide
  have h2 : userPermissionListGet [⟨"h", "a", 0, [("Select_priv", "N")]⟩]
      = [("h:a", "UserPermission NoPassword Select_priv(N)")] := by decide
  rw [h1, h2, diffPermissions_single_mismatch "user" "left" "right"
    ("h:a", "UserPermission NoPassword Select_priv(Y)")
    ("h:a", "UserPermission NoPassword Select_priv(N)") rfl (by decide)]
  decide

/-- Evaluation of the C2 example pair (with any shared user grants): the extra db grant
sits on the right side, so the message names the right side. -/
theorem c2_eval (ups : List UserPermission) :
    DiffPermissions "left" ⟨ups, []⟩ "right" ⟨ups, [⟨"h", "d", "u", []⟩]⟩
      = ["right has an extra db h:d:u"] := by
  rw [DiffPermissions, diffPermissions_self, List.nil_append]
  have h : dbPermissionListGet [⟨"h", "d", "u", []⟩] = [("h:d:u", "DbPermission")] := by decide
  rw [show dbPermissionListGet ([] : List DbPermission) = [] from rfl, h, diffPermissions]
  decide

/-! ## The claims -/

/-- C1 (amended): on the spec's example pair — user grants `h`/`a` with privileges
`Select_priv=Y` versus `Select_priv=N`, checksum 0 on both sides, identical db grants —
diffing with names `left` and `right` records exactly one message, but the rendered
user value starts with the `"UserPermission "` leader: the message is
`"permissions differ on user h:a:\nleft: UserPermission NoPassword Select_priv(Y)\n differs from:\nright: UserPermission NoPassword Select_priv(N)"`. -/
theorem claimC1 (dbs : List DbPermission) :
    DiffPermissions "left" ⟨[⟨"h", "a", 0, [("Select_priv", "Y")]⟩], dbs⟩
      "right" ⟨[⟨"h", "a", 0, [("Select_priv", "N")]⟩], dbs⟩ =
    ["permissions differ on user h:a:\nleft: UserPermission NoPassword Select_priv(Y)\n differs from:\nright: UserPermission NoPassword Select_priv(N)"] :=
  c1_eval dbs

/-- C1, counterexample to the claim as stated: the recorded message is not the spec's
string (which omits the `"UserPermission "` leader in both rendered values). -/
theorem claimC1_counterexample :
    DiffPermissions "left" ⟨[⟨"h", "a", 0, [("Select_priv", "Y")]⟩], []⟩
      "right" ⟨[⟨"h", "a", 0, [("Select_priv", "N")]⟩], []⟩ ≠
    ["permissions differ on user h:a:\nleft: NoPassword Select_priv(Y)\n differs from:\nright: NoPassword Select_priv(N)"] := by
  rw [c1_eval]
  decide

/-- C2 (amended): on the spec's example pair — empty db grants on the left, one db
grant `h`/`d`/`u` with empty privileges on the right, identical user grants — diffing
with names `left` and `right` records exactly one message, which names the side that
has the record: `"right has an extra db h:d:u"`. -/
theorem claimC2 (ups : List UserPermission) :
    DiffPermissions "left" ⟨ups, []⟩ "right" ⟨ups, [⟨"h", "d", "u", []⟩]⟩
      = ["right has an extra db h:d:u"] :=
  c2_eval ups

/-- C2, counterexample to the claim as stated: the single message is not
`"left has an extra db h:d:u"`. -/
theorem claimC2_counterexample :
    DiffPermissions "left" ⟨[], []⟩ "right" ⟨[], [⟨"h", "d", "u", []⟩]⟩
      ≠ ["left has an extra db h:d:u"] := by
  rw [c2_eval]
  decide

/-- C3 (amended): the value the differ compares and prints for a DatabaseGrant record
is the literal `"DbPermission"` followed by the sorted, space-separated rendering of
its privileges (no password component); it is not the privilege rendering alone. -/
theorem claimC3 (dps : List DbPermission) :
    (dbPermissionListGet dps).map Prod.snd
      = dps.map (fun dp => "DbPermission" ++ printPrivileges dp.privileges) :=
  dbPermissionListGet_map_snd dps

/-- C3, counterexample to the claim as stated: for a record with empty privileges the
compared value is `"DbPermission"`, not the empty privilege rendering. -/
theorem claimC3_counterexample :
    (dbPermissionListGet [⟨"h", "d", "u", []⟩]).map Prod.snd
      ≠ [printPrivileges []] := by
  decide

/-- C4: diffing any snapshot against a structurally identical copy of itself records
zero discrepancies for both record kinds, and DiffPermissionsToArray returns the empty
list. -/
theorem claimC4 (lN rN : String) (p : Permissions) :
    DiffPermissions lN p rN p = [] ∧ DiffPermissionsToArray lN p rN p = [] := by
  have h : DiffPermissions lN p rN p = [] := by
    rw [DiffPermissions, diffPermissions_self, diffPermissions_self, List.append_nil]
  exact ⟨h, by simp [DiffPermissionsToArray, h]⟩

/-- C5: two single-record inputs with the same primary key and differing rendered
values produce exactly one value-mismatch report (rendered with the mismatch message
template) and no extra-record report. -/
theorem claimC5 (name lN rN : String) (l r : String × String)
    (hk : l.1 = r.1) (hv : l.2 ≠ r.2) :
    diffReports name lN [l] rN [r] = [PermDiff.mismatch name l.1 lN l.2 rN r.2] ∧
    diffPermissions name lN [l] rN [r] = [mismatchMsg name l.1 lN l.2 rN r.2] :=
  ⟨diffReports_single_mismatch name lN rN l r hk hv,
    diffPermissions_single_mismatch name lN rN l r hk hv⟩

/-- C5, witness at a concrete input. -/
theorem claimC5_witness :
    ((("k", "a") : String × String).1 = (("k", "b") : String × String).1) ∧
    ((("k", "a") : String × String).2 ≠ (("k", "b") : String × String).2) ∧
    diffReports "user" "left" [("k", "a")] "right" [("k", "b")]
      = [PermDiff.mismatch "user" "k" "left" "a" "right" "b"] ∧
    diffPermissions "user" "left" [("k", "a")] "right" [("k", "b")]
      = [mismatchMsg "user" "k" "left" "a" "right" "b"] :=
  ⟨rfl, by decide,
    (claimC5 "user" "left" "right" ("k", "a") ("k", "b") rfl (by decide)).1,
    (claimC5 "user" "left" "right" ("k", "a") ("k", "b") rfl (by decide)).2⟩

/-- C6: if key K occurs among the user grants of the first sequence only, diffing
(first, second) with labels (lN, rN) records the message "lN has an extra user K", and
diffing the swapped sequences with the same labels records "rN has an extra user K":
the side label flips with the side holding the record while key and kind stay fixed. -/
theorem claimC6 (lN rN : String) (A B : List UserPermission) (K : String)
    (hK : K ∈ A.map UserPermissionPrimaryKey) (hK2 : K ∉ B.map UserPermissionPrimaryKey) :
    extraMsg lN "user" K ∈
      diffPermissions "user" lN (userPermissionListGet A) rN (userPermissionListGet B) ∧
    extraMsg rN "user" K ∈
      diffPermissions "user" lN (userPermissionListGet B) rN (userPermissionListGet A) := by
  have hA : K ∈ (userPermissionListGet A).map Prod.fst := by
    rw [userPermissionListGet_map_fst]
    exact hK
  have hB : K ∉ (userPermissionListGet B).map Prod.fst := by
    rw [userPermissionListGet_map_fst]
    exact hK2
  constructor
  · rw [diffPermissions_eq_render]
    exact List.mem_map.mpr ⟨_, extra_left_mem_reports "user" lN _ rN _ K hA hB, rfl⟩
  · rw [diffPermissions_eq_render]
    exact List.mem_map.mpr ⟨_, extra_right_mem_reports "user" lN _ rN _ K hA hB, rfl⟩

/-- C6, witness at a concrete input. -/
theorem claimC6_witness :
    ("h:a" ∈ [(⟨"h", "a", 0, []⟩ : UserPermission)].map UserPermissionPrimaryKey) ∧
    ("h:a" ∉ ([] : List UserPermission).map UserPermissionPrimaryKey) ∧
    (extraMsg "left" "user" "h:a" ∈
        diffPermissions "user" "left" (userPermissionListGet [⟨"h", "a", 0, []⟩])
          "right" (userPermissionListGet []) ∧
      extraMsg "right" "user" "h:a" ∈
        diffPermissions "user" "left" (userPermissionListGet [])
          "right" (userPermissionListGet [⟨"h", "a", 0, []⟩])) :=
  ⟨by decide, by decide,
    claimC6 "left" "right" [⟨"h", "a", 0, []⟩] [] "h:a" (by decide) (by decide)⟩

/-- C7: with both inputs strictly ascending by key, the recorded messages are the
renderings of the structured reports, whose keys are strictly increasing; and the
orchestrator emits all user-kind messages before all db-kind messages. -/
theorem claimC7 (name lN rN : String) (left right : List (String × String))
    (hl : List.Pairwise (fun a b : String => a < b) (left.map Prod.fst))
    (hr : List.Pairwise (fun a b : String => a < b) (right.map Prod.fst)) :
    diffPermissions name lN left rN right
      = (diffReports name lN left rN right).map PermDiff.render ∧
    List.Pairwise (fun a b : String => a < b)
      ((diffReports name lN left rN right).map PermDiff.key) ∧
    ∀ (lN2 rN2 : String) (lp rp : Permissions), DiffPermissions lN2 lp rN2 rp =
      diffPermissions "user" lN2 (userPermissionListGet lp.userPermissions)
          rN2 (userPermissionListGet rp.userPermissions) ++
        diffPermissions "db" lN2 (dbPermissionListGet lp.dbPermissions)
          rN2 (dbPermissionListGet rp.dbPermissions) :=
  ⟨diffPermissions_eq_render name lN left rN right,
    diffReports_keys_sorted name lN left rN right hl hr,
    fun _ _ _ _ => rfl⟩

/-- C7, witness at a concrete input. -/
theorem claimC7_witness :
    List.Pairwise (fun a b : String => a < b)
      (([("a:x", "1"), ("b:y", "2")] : List (String × String)).map Prod.fst) ∧
    List.Pairwise (fun a b : String => a < b)
      (([("b:y", "3"), ("c:z", "4")] : List (String × String)).map Prod.fst) ∧
    List.Pairwise (fun a b : String => a < b)
      ((diffReports "user" "left" [("a:x", "1"), ("b:y", "2")]
        "right" [("b:y", "3"), ("c:z", "4")]).map PermDiff.key) :=
  ⟨by simp [List.pairwise_cons]; decide, by simp [List.pairwise_cons]; decide,
    (claimC7 "user" "left" "right" [("a:x", "1"), ("b:y", "2")] [("b:y", "3"), ("c:z", "4")]
      (by simp [List.pairwise_cons]; decide) (by simp [List.pairwise_cons]; decide)).2.1⟩

/-- C8: the privilege rendering is the concatenation, over the keys in ascending
lexicographic order, of " " ++ key ++ "(" ++ value ++ ")"; the empty mapping renders
as the empty string; and the output does not depend on the iteration order of the
mapping (any permutation of a duplicate-free association list renders identically). -/
theorem claimC8 (priv priv' : List (String × String)) (ks : List String)
    (hnd : (priv.map Prod.fst).Nodup)
    (hperm : ks.Perm (priv.map Prod.fst))
    (hsort : List.Sorted (fun a b : String => a ≤ b) ks)
    (hperm' : priv.Perm priv') :
    printPrivileges priv
      = String.join (ks.map (fun k => " " ++ k ++ "(" ++ privLookup priv k ++ ")")) ∧
    printPrivileges ([] : List (String × String)) = "" ∧
    printPrivileges priv = printPrivileges priv' :=
  ⟨printPrivileges_sorted_keys priv ks hperm hsort, rfl, printPrivileges_perm hperm' hnd⟩

/-- C8, witness at a concrete input. -/
theorem claimC8_witness :
    (([("b", "2"), ("a", "1")] : List (String × String)).map Prod.fst).Nodup ∧
    (["a", "b"] : List String).Perm (([("b", "2"), ("a", "1")] : List (String × String)).map Prod.fst) ∧
    List.Sorted (fun a b : String => a ≤ b) ["a", "b"] ∧
    ([("b", "2"), ("a", "1")] : List (String × String)).Perm [("a", "1"), ("b", "2")] ∧
    (printPrivileges [("b", "2"), ("a", "1")]
        = String.join ((["a", "b"] : List String).map
          (fun k => " " ++ k ++ "(" ++ privLookup [("b", "2"), ("a", "1")] k ++ ")")) ∧
      printPrivileges ([] : List (String × String)) = "" ∧
      printPrivileges [("b", "2"), ("a", "1")] = printPrivileges [("a", "1"), ("b", "2")]) :=
  ⟨by decide, by decide, by simp [List.sorted_cons]; decide, by decide,
    claimC8 [("b", "2"), ("a", "1")] [("a", "1"), ("b", "2")] ["a", "b"]
      (by decide) (by decide) (by simp [List.sorted_cons]; decide) (by decide)⟩

/-- C9: for two UserGrant records with equal primary key and equal privileges, if the
password checksums differ the rendered values differ and the differ records exactly the
value mismatch for that key; if both checksums are 0 both values render the password
component as "NoPassword" and nothing is recorded. -/
theorem claimC9 (lN rN : String) (u v : UserPermission)
    (hpk : UserPermissionPrimaryKey u = UserPermissionPrimaryKey v)
    (hpriv : u.privileges = v.privileges) :
    (u.passwordChecksum ≠ v.passwordChecksum →
      UserPermissionString u ≠ UserPermissionString v ∧
      diffPermissions "user" lN (userPermissionListGet [u]) rN (userPermissionListGet [v])
        = [mismatchMsg "user" (UserPermissionPrimaryKey u) lN (UserPermissionString u)
            rN (UserPermissionString v)]) ∧
    (u.passwordChecksum = 0 → v.passwordChecksum = 0 →
      UserPermissionString u = "UserPermission " ++ "NoPassword" ++ printPrivileges u.privileges ∧
      UserPermissionString v = "UserPermission " ++ "NoPassword" ++ printPrivileges v.privileges ∧
      diffPermissions "user" lN (userPermissionListGet [u]) rN (userPermissionListGet [v])
        = []) := by
  constructor
  · intro hne
    have hval := userString_ne_of_checksum_ne u v hpriv hne
    refine ⟨hval, ?_⟩
    rw [show userPermissionListGet [u]
        = [(UserPermissionPrimaryKey u, UserPermissionString u)] from rfl,
      show userPermissionListGet [v]
        = [(UserPermissionPrimaryKey v, UserPermissionString v)] from rfl]
    exact diffPermissions_single_mismatch "user" lN rN _ _ hpk hval
  · intro hu hv
    refine ⟨UserPermissionString_nopassword u hu, UserPermissionString_nopassword v hv, ?_⟩
    have hvals : UserPermissionString u = UserPermissionString v := by
      rw [UserPermissionString_nopassword u hu, UserPermissionString_nopassword v hv, hpriv]
    rw [show userPermissionListGet [u]
        = [(UserPermissionPrimaryKey u, UserPermissionString u)] from rfl,
      show userPermissionListGet [v]
        = [(UserPermissionPrimaryKey v, UserPermissionString v)] from rfl]
    exact diffPermissions_single_eq "user" lN rN _ _ hpk hvals

/-- C9, witness at a concrete input with differing checksums. -/
theorem claimC9_witness :
    UserPermissionPrimaryKey ⟨"h", "a", 1, []⟩ = UserPermissionPrimaryKey ⟨"h", "a", 2, []⟩ ∧
    (UserPermissionString ⟨"h", "a", 1, []⟩ ≠ UserPermissionString ⟨"h", "a", 2, []⟩ ∧
      diffPermissions "user" "left" (userPermissionListGet [⟨"h", "a", 1, []⟩])
          "right" (userPermissionListGet [⟨"h", "a", 2, []⟩])
        = [mismatchMsg "user" (UserPermissionPrimaryKey ⟨"h", "a", 1, []⟩) "left"
            (UserPermissionString ⟨"h", "a", 1, []⟩) "right"
            (UserPermissionString ⟨"h", "a", 2, []⟩)]) :=
  ⟨by decide,
    (claimC9 "left" "right" ⟨"h", "a", 1, []⟩ ⟨"h", "a", 2, []⟩ (by decide) rfl).1 (by decide)⟩

/-- C10: with no sortedness or uniqueness assumption at all, one run of the differ
records at most len(left) + len(right) messages. -/
theorem claimC10 (name lN rN : String) (left right : List (String × String)) :
    (diffPermissions name lN left rN right).length ≤ left.length + right.length :=
  diffPermissions_length_le name lN left rN right

end Vitess
